import Mathlib

/-!
Verification of the core booking engine of the evently booking platform.

The definitions below are a shallow embedding of the Python source:

* `updateEventCapacity` embeds `BookingService._update_event_capacity`
  (services/booking_service.py, lines 858-882): a conditional UPDATE guarded
  by the stored version and the remaining capacity, followed, when zero rows
  were affected, by a reread that distinguishes insufficient capacity from a
  stale version.
* `releaseCapacity` embeds the general-admission branch of
  `BookingService._release_booking_capacity` (lines 916-935): an unconditional
  increment of `available_capacity` together with a version bump.
* `createBookingGA`, `createBookingSeats`, `confirmBooking`, `cancelBooking`
  and `expireBooking` embed the committed effect of the corresponding
  `BookingService` transactions on one event, its bookings and its seats.
* `bookSeats` and `releaseBookedSeats` embed `SeatService.book_seats` and
  `SeatService.release_booked_seats` (services/seat_service.py).
* The waitlist definitions embed `WaitlistService` (services/waitlist_service.py).
* `waitlistMultiplier` embeds
  `DynamicPricingService._calculate_waitlist_multiplier`
  (services/dynamic_pricing_service.py, lines 263-289), with real arithmetic
  modelled in `ℚ`.
-/

deriving instance DecidableEq for Except

namespace Evently

/-! ## Data model -/

inductive BStatus where
  | pending
  | confirmed
  | cancelled
  | expired
deriving DecidableEq

inductive SStatus where
  | available
  | held
  | booked
  | blocked
deriving DecidableEq

/-- The capacity-relevant columns of one `events` row
(models/event.py): `total_capacity`, `available_capacity`, `version`. -/
structure EventRow where
  totalCapacity : Nat
  availableCapacity : Int
  version : Nat
deriving DecidableEq

/-- One `bookings` row (models/booking.py) together with its `seat_bookings`
children: the `seatIds` field lists the `seat_id` values of the `SeatBooking`
rows of the booking (empty for a general-admission booking). -/
structure BookingR where
  bid : Nat
  quantity : Nat
  status : BStatus
  seatIds : List Nat
  expiresAt : Option Nat
deriving DecidableEq

/-- One `seats` row (models/seat.py), reduced to its id and status. -/
structure SeatR where
  sid : Nat
  status : SStatus
deriving DecidableEq

/-- The state of one event with its bookings and seats. -/
structure EvState where
  event : EventRow
  eventDate : Nat
  isActive : Bool
  hasSeatSelection : Bool
  bookings : List BookingR
  seats : List SeatR
deriving DecidableEq

inductive BErr where
  | validation
  | insufficientCapacity
  | concurrency
  | notFound
  | invalidState
  | bookingExpired
  | seatNotAvailable
deriving DecidableEq

/-! ## CapacityController -/

inductive CapacityOutcome where
  | reserved
  | insufficientCapacity
  | staleVersion
deriving DecidableEq

/-- Embeds `BookingService._update_event_capacity` (booking_service.py:858-882):
`UPDATE events SET available_capacity = available_capacity - quantity,
version = version + 1 WHERE id = ? AND version = expectedVersion AND
available_capacity >= quantity`; on zero affected rows the row is reread
unchanged and the failure is classified as insufficient capacity when
`available_capacity < quantity`, and as a concurrency error otherwise.
Returns the row as stored after the statement, with the outcome. -/
def updateEventCapacity (stored : EventRow) (expectedVersion : Nat) (quantity : Nat) :
    EventRow × CapacityOutcome :=
  if stored.version = expectedVersion ∧ (quantity : Int) ≤ stored.availableCapacity then
    ({ stored with
        availableCapacity := stored.availableCapacity - quantity
        version := stored.version + 1 }, .reserved)
  else if stored.availableCapacity < (quantity : Int) then
    (stored, .insufficientCapacity)
  else
    (stored, .staleVersion)

/-- The general-admission branch of `BookingService._release_booking_capacity`
(booking_service.py:926-935): an unconditional
`UPDATE events SET available_capacity = available_capacity + quantity,
version = version + 1 WHERE id = ?`.  No guard compares the result against
`total_capacity`. -/
def releaseCapacity (e : EventRow) (quantity : Nat) : EventRow :=
  { e with
      availableCapacity := e.availableCapacity + quantity
      version := e.version + 1 }

/-- A capped restore as the specification describes `Restore` (spec §4.5):
increases `availableCapacity` by `n`, capped at `totalCapacity`.  Written from
the words of the spec, only for comparison with `releaseCapacity`. -/
def specCappedRestore (e : EventRow) (quantity : Nat) : EventRow :=
  { e with
      availableCapacity := min (e.availableCapacity + quantity) (e.totalCapacity : Int)
      version := e.version + 1 }

/-! ## BookingEngine operations -/

/-- Look up a booking by id, as `BookingService._get_booking_with_relations`
does (first row matching the id; ids are a primary key). -/
def findBooking (s : EvState) (bid : Nat) : Option BookingR :=
  s.bookings.find? (fun b => b.bid == bid)

/-- Apply an update to the booking with the given id. -/
def setBooking (s : EvState) (bid : Nat) (f : BookingR → BookingR) : EvState :=
  { s with bookings := s.bookings.map (fun b => if b.bid == bid then f b else b) }

/-- Update every seat whose id is listed to the given status, as the
`UPDATE seats ... WHERE id IN (...)` statements do. -/
def updateSeats (seats : List SeatR) (ids : List Nat) (st : SStatus) : List SeatR :=
  seats.map (fun x => if ids.contains x.sid then { x with status := st } else x)

/-- Status of the seat with the given id, if present. -/
def seatStatus (seats : List SeatR) (sid : Nat) : Option SStatus :=
  (seats.find? (fun x => x.sid == sid)).map (·.status)

/-- Embeds `Booking.is_expired` (models/booking.py:101-106): false when `expires_at`
is unset, otherwise `now > expires_at` (strict). -/
def isExpiredAt (b : BookingR) (now : Nat) : Bool :=
  match b.expiresAt with
  | none => false
  | some t => decide (t < now)

/-- Committed effect of `BookingService.create_booking` without `seat_ids`
(booking_service.py:49-145): event active check, quantity validation
(positive, at most `maxq`), past-event check, general-capacity check
(`InsufficientCapacityError` when `available_capacity < quantity`), then the
version-checked capacity decrement `_update_event_capacity` and insertion of
a `PENDING` booking whose `expires_at` is `now` plus the configured hold
timeout `holdT`. -/
def createBookingGA (s : EvState) (now holdT maxq bid qty : Nat) :
    Except BErr EvState :=
  if ¬ s.isActive then .error .validation
  else if qty = 0 then .error .validation
  else if maxq < qty then .error .validation
  else if s.eventDate < now then .error .validation
  else if s.event.availableCapacity < (qty : Int) then .error .insufficientCapacity
  else
    match updateEventCapacity s.event s.event.version qty with
    | (e2, .reserved) =>
        .ok { s with
                event := e2
                bookings := s.bookings ++ [⟨bid, qty, .pending, [], some (now + holdT)⟩] }
    | (_, .insufficientCapacity) => .error .insufficientCapacity
    | (_, .staleVersion) => .error .concurrency

/-- Committed effect of `BookingService.create_booking` with `seat_ids`
(booking_service.py:49-145 with `_reserve_specific_seats`, lines 836-856):
after validation (seat count equals quantity, the event supports seat
selection, and every listed seat exists with status `AVAILABLE` — the count
of available matching rows must equal the number of ids), the listed seats
move to `HELD`, a `SeatBooking` row is written per seat, and a `PENDING`
booking is inserted.  `available_capacity` is not touched on this path. -/
def createBookingSeats (s : EvState) (now holdT maxq bid qty : Nat)
    (seatIds : List Nat) : Except BErr EvState :=
  if ¬ s.isActive then .error .validation
  else if qty = 0 then .error .validation
  else if maxq < qty then .error .validation
  else if s.eventDate < now then .error .validation
  else if seatIds.length ≠ qty then .error .validation
  else if ¬ s.hasSeatSelection then .error .validation
  else if (s.seats.filter
      (fun x => seatIds.contains x.sid && decide (x.status = .available))).length
      ≠ seatIds.length then .error .insufficientCapacity
  else
    .ok { s with
            seats := updateSeats s.seats seatIds .held
            bookings := s.bookings ++ [⟨bid, qty, .pending, seatIds, some (now + holdT)⟩] }

/-- Committed effect of `BookingService.confirm_booking`
(booking_service.py:147-204): requires the booking to exist, to be `PENDING`
and not expired (`_validate_booking_confirmation`, lines 903-909); then sets
`status = CONFIRMED` and clears `expires_at`.  Seats are not touched. -/
def confirmBooking (s : EvState) (now bid : Nat) : Except BErr EvState :=
  match findBooking s bid with
  | none => .error .notFound
  | some b =>
    if b.status ≠ .pending then .error .invalidState
    else if isExpiredAt b now then .error .bookingExpired
    else .ok (setBooking s bid (fun x => { x with status := .confirmed, expiresAt := none }))

/-- Embeds `BookingService._release_booking_capacity` (booking_service.py:916-935):
when the booking has `seat_bookings`, set each linked seat to `AVAILABLE`
(the `SeatBooking` rows are not deleted); otherwise add the quantity of the
booking back to `available_capacity` and bump the version. -/
def releaseBookingCapacity (s : EvState) (b : BookingR) : EvState :=
  if b.seatIds.isEmpty then { s with event := releaseCapacity s.event b.quantity }
  else { s with seats := updateSeats s.seats b.seatIds .available }

/-- Committed effect of `BookingService.cancel_booking`
(booking_service.py:206-268): requires status `PENDING` or `CONFIRMED`;
releases the inventory of the booking via `_release_booking_capacity`, then sets
`status = CANCELLED` and clears `expires_at`. -/
def cancelBooking (s : EvState) (bid : Nat) : Except BErr EvState :=
  match findBooking s bid with
  | none => .error .notFound
  | some b =>
    if b.status = .pending ∨ b.status = .confirmed then
      .ok (setBooking (releaseBookingCapacity s b) bid
            (fun x => { x with status := .cancelled, expiresAt := none }))
    else .error .invalidState

/-- Committed effect of `BookingService.expire_booking`
(booking_service.py:270-316): a non-`PENDING` booking is returned unchanged;
a `PENDING` booking has its inventory released via
`_release_booking_capacity` and its status set to `EXPIRED`.  The code does
not assign `expires_at`, so the field keeps its value. -/
def expireBooking (s : EvState) (bid : Nat) : Except BErr EvState :=
  match findBooking s bid with
  | none => .error .notFound
  | some b =>
    if b.status ≠ .pending then .ok s
    else .ok (setBooking (releaseBookingCapacity s b) bid
                (fun x => { x with status := .expired }))

/-! ## SeatService -/

/-- Embeds `SeatService.book_seats` (seat_service.py:334-404): loads the seats whose
ids are listed, rejects the whole set if any loaded seat is neither
`AVAILABLE` nor `HELD`, otherwise moves the listed seats to `BOOKED` and
creates one `SeatBooking(bookingId, seatId)` row per loaded seat.  Returns
the updated seat table and the created rows. -/
def bookSeats (seats : List SeatR) (seatIds : List Nat) (bid : Nat) :
    Except BErr (List SeatR × List (Nat × Nat)) :=
  let found := seats.filter (fun x => seatIds.contains x.sid)
  if found.all (fun x => decide (x.status = .available) || decide (x.status = .held)) then
    .ok (updateSeats seats seatIds .booked, found.map (fun x => (bid, x.sid)))
  else .error .seatNotAvailable

/-- Embeds `SeatService.release_booked_seats` (seat_service.py:406-448): reads the
`seat_id` values of the `SeatBooking` rows of the booking and sets those seats to
`AVAILABLE`.  The statement under the comment `Delete seat booking records`
(line 430) is a `select`, not a `delete`, so the rows table is returned
unchanged. -/
def releaseBookedSeats (seats : List SeatR) (rows : List (Nat × Nat)) (bid : Nat) :
    List SeatR × List (Nat × Nat) :=
  let ids := (rows.filter (fun r => r.1 == bid)).map (·.2)
  (updateSeats seats ids .available, rows)

/-! ## Reachable states of the booking engine -/

/-- One committed transaction of the booking engine.  The freshness
hypotheses on the create steps model the primary-key constraint on
`bookings.id`. -/
inductive BStep : EvState → EvState → Prop where
  | createGA (now holdT maxq bid qty : Nat) (s s2 : EvState)
      (hfresh : findBooking s bid = none)
      (h : createBookingGA s now holdT maxq bid qty = .ok s2) : BStep s s2
  | createSeats (now holdT maxq bid qty : Nat) (seatIds : List Nat) (s s2 : EvState)
      (hfresh : findBooking s bid = none)
      (h : createBookingSeats s now holdT maxq bid qty seatIds = .ok s2) : BStep s s2
  | confirm (now bid : Nat) (s s2 : EvState)
      (h : confirmBooking s now bid = .ok s2) : BStep s s2
  | cancel (bid : Nat) (s s2 : EvState)
      (h : cancelBooking s bid = .ok s2) : BStep s s2
  | expire (bid : Nat) (s s2 : EvState)
      (h : expireBooking s bid = .ok s2) : BStep s s2

/-- An event as created by `EventService.create_event`
(event_service.py:51-58): `available_capacity` starts equal to
`total_capacity` and there are no bookings yet. -/
def InitState (s : EvState) : Prop :=
  s.event.availableCapacity = (s.event.totalCapacity : Int) ∧ s.bookings = []

/-- States reachable from a fresh event by committed
create/confirm/cancel/expire transactions. -/
inductive Reachable : EvState → Prop where
  | init (s : EvState) (h : InitState s) : Reachable s
  | step (s s2 : EvState) (hr : Reachable s) (hs : BStep s s2) : Reachable s2

/-- Per-booking contribution to the active general-admission total. -/
def gaContribution (b : BookingR) : Nat :=
  if (b.status = .pending ∨ b.status = .confirmed) ∧ b.seatIds = [] then b.quantity else 0

/-- Sum of the quantities of active (pending or confirmed)
general-admission bookings. -/
def gaActiveSum (l : List BookingR) : Nat := (l.map gaContribution).sum

/-- Per-booking contribution to the active total, seats included. -/
def activeContribution (b : BookingR) : Nat :=
  if b.status = .pending ∨ b.status = .confirmed then b.quantity else 0

/-- Sum of the quantities of all active (pending or confirmed) bookings. -/
def activeSum (l : List BookingR) : Nat := (l.map activeContribution).sum

/-- The status/expiry relation every stored booking satisfies. -/
def statusExpiry (b : BookingR) : Prop :=
  (b.status = .pending → b.expiresAt ≠ none) ∧
  (b.status = .confirmed → b.expiresAt = none) ∧
  (b.status = .cancelled → b.expiresAt = none) ∧
  (b.status = .expired → b.expiresAt ≠ none)

/-- The inductive invariant of the booking engine. -/
def Inv (s : EvState) : Prop :=
  (s.bookings.map (·.bid)).Nodup ∧
  0 ≤ s.event.availableCapacity ∧
  s.event.availableCapacity + (gaActiveSum s.bookings : Int) = (s.event.totalCapacity : Int) ∧
  ∀ b ∈ s.bookings, statusExpiry b

/-! ## WaitlistService -/

inductive WStatus where
  | active
  | notified
  | expired
  | converted
deriving DecidableEq

/-- One `waitlist` row (models/waitlist.py) for a fixed event. -/
structure WEntry where
  wid : Nat
  uid : Nat
  req : Nat
  position : Nat
  status : WStatus
deriving DecidableEq

/-- Non-terminal statuses (`ACTIVE`, `NOTIFIED`). -/
def nonTerminalB (e : WEntry) : Bool :=
  decide (e.status = .active) || decide (e.status = .notified)

/-- Largest position over all entries of the event, 0 when there are none. -/
def maxPos (s : List WEntry) : Nat := s.foldr (fun e m => max e.position m) 0

/-- Embeds `WaitlistService._get_next_waitlist_position`
(waitlist_service.py:517-527): `max(position)` over *all* entries of the
event, regardless of status, plus one. -/
def nextPosition (s : List WEntry) : Nat := maxPos s + 1

/-- Embeds `WaitlistService._reorder_waitlist_after_removal`
(waitlist_service.py:545-558): decrement the position of every `ACTIVE` or
`NOTIFIED` entry whose position exceeds the removed position. -/
def reorderAfterRemoval (s : List WEntry) (p : Nat) : List WEntry :=
  s.map (fun e =>
    if nonTerminalB e && decide (p < e.position) then
      { e with position := e.position - 1 }
    else e)

/-- Predicate used by `_get_user_waitlist_entry` (waitlist_service.py:490-504):
the entry of the user with status `ACTIVE` or `NOTIFIED`. -/
def userEntryB (uid : Nat) (e : WEntry) : Bool := e.uid == uid && nonTerminalB e

/-- Insertion part of `WaitlistService.join_waitlist`
(waitlist_service.py:60-159): when the user has no non-terminal entry, a new
`ACTIVE` entry is appended at `nextPosition`; otherwise the operation fails
and the state is unchanged. -/
def joinWaitlist (s : List WEntry) (wid uid req : Nat) : List WEntry :=
  if (s.find? (userEntryB uid)).isSome then s
  else s ++ [⟨wid, uid, req, nextPosition s, .active⟩]

/-- Remove the first entry satisfying the predicate (the row deleted by
`session.delete` after `scalar_one_or_none`). -/
def removeFirst (p : WEntry → Bool) : List WEntry → List WEntry
  | [] => []
  | e :: rest => if p e then rest else e :: removeFirst p rest

/-- Embeds `WaitlistService.leave_waitlist` (waitlist_service.py:161-198): delete
the non-terminal entry of the user, then reorder the entries after the removed
position; unchanged when the user has no entry. -/
def leaveWaitlist (s : List WEntry) (uid : Nat) : List WEntry :=
  match s.find? (userEntryB uid) with
  | none => s
  | some e => reorderAfterRemoval (removeFirst (userEntryB uid) s) e.position

/-- Embeds `WaitlistService.convert_waitlist_to_booking`
(waitlist_service.py:253-292): look the entry up by id (any status), set its
status to `CONVERTED` — its position is not changed — and reorder the
entries after its position. -/
def convertWaitlist (s : List WEntry) (wid : Nat) : List WEntry :=
  match s.find? (fun e => e.wid == wid) with
  | none => s
  | some e =>
      reorderAfterRemoval
        (s.map (fun x => if x.wid == wid then { x with status := .converted } else x))
        e.position

/-- Number of non-terminal entries whose position equals `m`. -/
def posCount (s : List WEntry) (m : Nat) : Nat :=
  s.countP (fun e => nonTerminalB e && e.position == m)

/-- Number of non-terminal entries. -/
def ntCount (s : List WEntry) : Nat := s.countP nonTerminalB

/-- The positions of the non-terminal entries form the contiguous sequence
`1..k` where `k` is the number of non-terminal entries: each position in
that range is held by exactly one non-terminal entry, and no position
outside it is held. -/
def contiguousPositions (s : List WEntry) : Prop :=
  ∀ m, posCount s m = if 1 ≤ m ∧ m ≤ ntCount s then 1 else 0

/-- The loop of `WaitlistService.notify_waitlist`
(waitlist_service.py:221-241) over the active entries in ascending position:
stop when nothing remains; an entry whose request fits is set to `NOTIFIED`
and its request subtracted; an entry whose request exceeds the remainder is
left unchanged and the walk continues with the next entry.  Returns the
walked entries after the update, and the notified entries. -/
def notifyScan : List WEntry → Nat → List WEntry × List WEntry
  | [], _ => ([], [])
  | e :: rest, rem =>
    if rem = 0 then (e :: rest, [])
    else if e.req ≤ rem then
      let r := notifyScan rest (rem - e.req)
      ({ e with status := .notified } :: r.1, { e with status := .notified } :: r.2)
    else
      let r := notifyScan rest rem
      (e :: r.1, r.2)

/-- Insert an entry into a list sorted by ascending position. -/
def insertByPos (e : WEntry) : List WEntry → List WEntry
  | [] => [e]
  | x :: xs => if e.position < x.position then e :: x :: xs else x :: insertByPos e xs

/-- Sort entries by ascending position (the `ORDER BY position ASC` of
`_get_active_waitlist_entries`, waitlist_service.py:529-543). -/
def sortByPos : List WEntry → List WEntry
  | [] => []
  | x :: xs => insertByPos x (sortByPos xs)

/-- Embeds `WaitlistService.notify_waitlist` (waitlist_service.py:200-251): walk the
`ACTIVE` entries of the event in ascending position with `notifyScan`. -/
def notifyWaitlist (s : List WEntry) (availableQuantity : Nat) :
    List WEntry × List WEntry :=
  notifyScan (sortByPos (s.filter (fun e => decide (e.status = .active)))) availableQuantity

/-! ## Dynamic pricing -/

/-- Embeds `DynamicPricingService._calculate_waitlist_multiplier`
(dynamic_pricing_service.py:263-289): 1.0 when the waitlist is empty;
otherwise the pressure is `waitlistSize / availableCapacity` when
`availableCapacity > 0` and `waitlistSize / 10` otherwise, and the factor is
1.3 for pressure ≥ 2, 1.15 for pressure ≥ 1, 1.05 for pressure ≥ 0.5 and
1.0 below.  Real arithmetic is modelled in `ℚ`. -/
def waitlistMultiplier (waitlistSize : Nat) (availableCapacity : Int) : ℚ :=
  if waitlistSize = 0 then 1
  else
    let pressure : ℚ :=
      if 0 < availableCapacity then (waitlistSize : ℚ) / (availableCapacity : ℚ)
      else (waitlistSize : ℚ) / 10
    if 2 ≤ pressure then 13/10
    else if 1 ≤ pressure then 23/20
    else if 1/2 ≤ pressure then 21/20
    else 1

/-- The waitlist factor as the specification states it (spec §4.8):
`pressure = waitlistSize / max(availableCapacity, 10)` with the same
thresholds.  Written from the words of the spec, only for comparison with
`waitlistMultiplier`. -/
def specWaitlistMultiplier (waitlistSize : Nat) (availableCapacity : Int) : ℚ :=
  let pressure : ℚ := (waitlistSize : ℚ) / ((max availableCapacity 10 : Int) : ℚ)
  if 2 ≤ pressure then 13/10
  else if 1 ≤ pressure then 23/20
  else if 1/2 ≤ pressure then 21/20
  else 1

/-! ## Concrete example states -/

/-- A fresh general-admission event with capacity 2. -/
def exInit : EvState := ⟨⟨2, 2, 1⟩, 1000, true, false, [], []⟩

/-- State `exInit` after `createBookingGA` at time 10 with hold timeout 15. -/
def exPending : EvState :=
  ⟨⟨2, 1, 2⟩, 1000, true, false, [⟨1, 1, .pending, [], some 25⟩], []⟩

/-- A fresh event with seat selection and one available seat. -/
def exSeat0 : EvState := ⟨⟨10, 10, 1⟩, 100, true, true, [], [⟨7, .available⟩]⟩

/-- State `exSeat0` after a seat-selection `createBookingSeats` for seat 7. -/
def exSeat1 : EvState :=
  ⟨⟨10, 10, 1⟩, 100, true, true, [⟨1, 1, .pending, [7], some 25⟩], [⟨7, .held⟩]⟩

/-- State `exSeat1` after `confirmBooking` at time 20: the seat is still `HELD`. -/
def exSeat2 : EvState :=
  ⟨⟨10, 10, 1⟩, 100, true, true, [⟨1, 1, .confirmed, [7], none⟩], [⟨7, .held⟩]⟩

/-- An event with one confirmed general-admission booking of quantity 3. -/
def exCancelGA : EvState :=
  ⟨⟨5, 2, 3⟩, 100, true, false, [⟨1, 3, .confirmed, [], none⟩], []⟩

/-- An event with a confirmed seat booking whose seat is `BOOKED`. -/
def exConfirmedSeats : EvState :=
  ⟨⟨10, 10, 1⟩, 100, true, true, [⟨1, 1, .confirmed, [7], none⟩], [⟨7, .booked⟩]⟩

/-- An event with one pending booking whose `expires_at` is 100. -/
def exPendingAt100 : EvState :=
  ⟨⟨5, 4, 2⟩, 1000, true, false, [⟨1, 1, .pending, [], some 100⟩], []⟩

/-- A two-entry waitlist: positions 1 and 2, both active. -/
def exWl : List WEntry := [⟨1, 1, 1, 1, .active⟩, ⟨2, 2, 1, 2, .active⟩]

/-! ## General list lemmas -/

theorem find?_decomp {α : Type} (p : α → Bool) (l : List α) (a : α)
    (h : l.find? p = some a) :
    ∃ l₁ l₂, l = l₁ ++ a :: l₂ ∧ ∀ x ∈ l₁, p x = false := by
  induction l with
  | nil => simp at h
  | cons y ys ih =>
    by_cases hy : p y
    · refine ⟨[], ys, ?_, by simp⟩
      simp [List.find?_cons, hy] at h
      simp [h]
    · simp [List.find?_cons, hy] at h
      obtain ⟨l₁, l₂, rfl, hl₁⟩ := ih h
      exact ⟨y :: l₁, l₂, rfl, by
        intro x hx
        rcases List.mem_cons.mp hx with rfl | hx
        · simpa using hy
        · exact hl₁ x hx⟩

/-! ## Inversion lemmas for the booking operations -/

theorem createBookingGA_ok {s : EvState} {now holdT maxq bid qty : Nat} {s2 : EvState}
    (h : createBookingGA s now holdT maxq bid qty = .ok s2) :
    s.isActive = true ∧ qty ≠ 0 ∧ (qty : Int) ≤ s.event.availableCapacity ∧
    s2 = { s with
            event := { s.event with
                        availableCapacity := s.event.availableCapacity - qty
                        version := s.event.version + 1 }
            bookings := s.bookings ++ [⟨bid, qty, .pending, [], some (now + holdT)⟩] } := by
  unfold createBookingGA at h
  split at h; · exact absurd h (by simp)
  split at h; · exact absurd h (by simp)
  split at h; · exact absurd h (by simp)
  split at h; · exact absurd h (by simp)
  split at h; · exact absurd h (by simp)
  rename_i hact hqty hmax hdate hcap
  split at h
  · rename_i e2 heq
    rw [updateEventCapacity, if_pos ⟨rfl, by omega⟩] at heq
    refine ⟨by simpa using hact, hqty, by omega, ?_⟩
    cases h
    cases heq
    rfl
  · exact absurd h (by simp)
  · exact absurd h (by simp)

theorem createBookingSeats_ok {s : EvState} {now holdT maxq bid qty : Nat}
    {seatIds : List Nat} {s2 : EvState}
    (h : createBookingSeats s now holdT maxq bid qty seatIds = .ok s2) :
    s.isActive = true ∧ qty ≠ 0 ∧ seatIds.length = qty ∧ s.hasSeatSelection = true ∧
    s2 = { s with
            seats := updateSeats s.seats seatIds .held
            bookings := s.bookings ++ [⟨bid, qty, .pending, seatIds, some (now + holdT)⟩] } := by
  unfold createBookingSeats at h
  split at h; · exact absurd h (by simp)
  split at h; · exact absurd h (by simp)
  split at h; · exact absurd h (by simp)
  split at h; · exact absurd h (by simp)
  split at h; · exact absurd h (by simp)
  split at h; · exact absurd h (by simp)
  split at h; · exact absurd h (by simp)
  rename_i hact hqty hmax hdate hlen hsel hav
  cases h
  refine ⟨by simpa using hact, hqty, by omega, by simpa using hsel, rfl⟩

theorem confirmBooking_ok {s : EvState} {now bid : Nat} {s2 : EvState}
    (h : confirmBooking s now bid = .ok s2) :
    ∃ b, findBooking s bid = some b ∧ b.status = .pending ∧
      isExpiredAt b now = false ∧
      s2 = setBooking s bid (fun x => { x with status := .confirmed, expiresAt := none }) := by
  unfold confirmBooking at h
  split at h; · exact absurd h (by simp)
  rename_i b hb
  split at h; · exact absurd h (by simp)
  split at h; · exact absurd h (by simp)
  rename_i hst hex
  cases h
  exact ⟨b, hb, by simpa using hst, by simpa using hex, rfl⟩

theorem cancelBooking_ok {s : EvState} {bid : Nat} {s2 : EvState}
    (h : cancelBooking s bid = .ok s2) :
    ∃ b, findBooking s bid = some b ∧ (b.status = .pending ∨ b.status = .confirmed) ∧
      s2 = setBooking (releaseBookingCapacity s b) bid
            (fun x => { x with status := .cancelled, expiresAt := none }) := by
  unfold cancelBooking at h
  split at h; · exact absurd h (by simp)
  rename_i b hb
  split at h
  · rename_i hst
    cases h
    exact ⟨b, hb, hst, rfl⟩
  · exact absurd h (by simp)

theorem expireBooking_ok {s : EvState} {bid : Nat} {s2 : EvState}
    (h : expireBooking s bid = .ok s2) :
    ∃ b, findBooking s bid = some b ∧
      ((b.status ≠ .pending ∧ s2 = s) ∨
       (b.status = .pending ∧
        s2 = setBooking (releaseBookingCapacity s b) bid
              (fun x => { x with status := .expired }))) := by
  unfold expireBooking at h
  split at h; · exact absurd h (by simp)
  rename_i b hb
  split at h
  · rename_i hst
    cases h
    exact ⟨b, hb, Or.inl ⟨hst, rfl⟩⟩
  · rename_i hst
    cases h
    exact ⟨b, hb, Or.inr ⟨by simpa using hst, rfl⟩⟩

/-! ## Booking-list decomposition -/

theorem booking_decomp {s : EvState} {bid : Nat} {b : BookingR}
    (hn : (s.bookings.map (·.bid)).Nodup) (h : findBooking s bid = some b) :
    ∃ l₁ l₂, s.bookings = l₁ ++ b :: l₂ ∧ b.bid = bid ∧
      (∀ x ∈ l₁, ¬ x.bid = bid) ∧ (∀ x ∈ l₂, ¬ x.bid = bid) := by
  unfold findBooking at h
  have hpb := List.find?_some h
  have hbid : b.bid = bid := by simpa using hpb
  obtain ⟨l₁, l₂, hdec, hl₁⟩ := find?_decomp _ _ _ h
  refine ⟨l₁, l₂, hdec, hbid, ?_, ?_⟩
  · intro x hx
    have := hl₁ x hx
    simpa using this
  · intro x hx hxbid
    rw [hdec] at hn
    simp only [List.map_append, List.map_cons] at hn
    have h2 := (List.nodup_append.mp hn).2.1
    have hnot := (List.nodup_cons.mp h2).1
    have hmem : x.bid ∈ List.map (fun y => y.bid) l₂ := List.mem_map.mpr ⟨x, hx, rfl⟩
    rw [hxbid, ← hbid] at hmem
    exact hnot hmem

theorem setBooking_decomp {l₁ l₂ : List BookingR} {b : BookingR} {bid : Nat}
    (f : BookingR → BookingR)
    (hb : b.bid = bid) (h1 : ∀ x ∈ l₁, ¬ x.bid = bid) (h2 : ∀ x ∈ l₂, ¬ x.bid = bid) :
    (l₁ ++ b :: l₂).map (fun x => if x.bid == bid then f x else x) =
      l₁ ++ f b :: l₂ := by
  rw [List.map_append, List.map_cons]
  have e1 : l₁.map (fun x => if x.bid == bid then f x else x) = l₁ := by
    conv_rhs => rw [← List.map_id l₁]
    exact List.map_congr_left (fun x hx => by simp [h1 x hx])
  have e2 : l₂.map (fun x => if x.bid == bid then f x else x) = l₂ := by
    conv_rhs => rw [← List.map_id l₂]
    exact List.map_congr_left (fun x hx => by simp [h2 x hx])
  rw [e1, e2]
  simp [hb]

/-! ## Sum lemmas -/

theorem gaActiveSum_append (l₁ l₂ : List BookingR) :
    gaActiveSum (l₁ ++ l₂) = gaActiveSum l₁ + gaActiveSum l₂ := by
  simp [gaActiveSum]

theorem gaActiveSum_cons (b : BookingR) (l : List BookingR) :
    gaActiveSum (b :: l) = gaContribution b + gaActiveSum l := by
  simp [gaActiveSum]

theorem activeSum_append (l₁ l₂ : List BookingR) :
    activeSum (l₁ ++ l₂) = activeSum l₁ + activeSum l₂ := by
  simp [activeSum]

theorem activeSum_cons (b : BookingR) (l : List BookingR) :
    activeSum (b :: l) = activeContribution b + activeSum l := by
  simp [activeSum]

/-! ## Small rewriting lemmas for the operations -/

theorem releaseBookingCapacity_bookings (s : EvState) (b : BookingR) :
    (releaseBookingCapacity s b).bookings = s.bookings := by
  unfold releaseBookingCapacity
  split <;> rfl

theorem releaseBookingCapacity_event_ga {s : EvState} {b : BookingR}
    (h : b.seatIds = []) :
    (releaseBookingCapacity s b).event = releaseCapacity s.event b.quantity := by
  unfold releaseBookingCapacity
  simp [h]

theorem releaseBookingCapacity_event_seats {s : EvState} {b : BookingR}
    (h : b.seatIds ≠ []) :
    (releaseBookingCapacity s b).event = s.event := by
  unfold releaseBookingCapacity
  simp [h]

theorem setBooking_event (s : EvState) (bid : Nat) (f : BookingR → BookingR) :
    (setBooking s bid f).event = s.event := rfl

/-! ## The inductive invariant -/

theorem inv_init {s : EvState} (h : InitState s) : Inv s := by
  obtain ⟨hcap, hbk⟩ := h
  refine ⟨by simp [hbk], by simp [hcap], by simp [hbk, hcap, gaActiveSum], by simp [hbk]⟩

theorem fresh_not_mem {s : EvState} {bid : Nat}
    (hfresh : findBooking s bid = none) :
    ∀ x ∈ s.bookings, ¬ x.bid = bid := by
  unfold findBooking at hfresh
  intro x hx
  have := List.find?_eq_none.mp hfresh x hx
  simpa using this

theorem inv_step {s s2 : EvState} (hi : Inv s) (hs : BStep s s2) : Inv s2 := by
  obtain ⟨hn, hge, heq, hall⟩ := hi
  cases hs with
  | createGA now holdT maxq bid qty s s2 hfresh h =>
    obtain ⟨hact, hqty, hcap, rfl⟩ := createBookingGA_ok h
    have hdisj := fresh_not_mem hfresh
    refine ⟨?_, ?_, ?_, ?_⟩
    · simp only [List.map_append, List.map_cons, List.map_nil]
      rw [List.nodup_append]
      refine ⟨hn, by simp, ?_⟩
      intro a ha hb
      simp only [List.mem_singleton] at hb
      obtain ⟨x, hx, rfl⟩ := List.mem_map.mp ha
      exact hdisj x hx hb
    · simpa using hcap
    · have hsum : gaActiveSum (s.bookings ++ [⟨bid, qty, .pending, [], some (now + holdT)⟩])
          = gaActiveSum s.bookings + qty := by
        rw [gaActiveSum_append, gaActiveSum_cons]
        simp [gaActiveSum, gaContribution]
      show s.event.availableCapacity - (qty : Int) + _ = _
      rw [hsum]
      push_cast
      omega
    · intro x hx
      rcases List.mem_append.mp hx with hx | hx
      · exact hall x hx
      · simp only [List.mem_singleton] at hx
        subst hx
        simp [statusExpiry]
  | createSeats now holdT maxq bid qty seatIds s s2 hfresh h =>
    obtain ⟨hact, hqty, hlen, hsel, rfl⟩ := createBookingSeats_ok h
    have hdisj := fresh_not_mem hfresh
    have hne : seatIds ≠ [] := by
      intro hnil
      rw [hnil] at hlen
      exact hqty hlen.symm
    refine ⟨?_, by simpa using hge, ?_, ?_⟩
    · simp only [List.map_append, List.map_cons, List.map_nil]
      rw [List.nodup_append]
      refine ⟨hn, by simp, ?_⟩
      intro a ha hb
      simp only [List.mem_singleton] at hb
      obtain ⟨x, hx, rfl⟩ := List.mem_map.mp ha
      exact hdisj x hx hb
    · have hsum : gaActiveSum (s.bookings ++ [⟨bid, qty, .pending, seatIds, some (now + holdT)⟩])
          = gaActiveSum s.bookings := by
        rw [gaActiveSum_append, gaActiveSum_cons]
        simp [gaActiveSum, gaContribution, hne]
      show s.event.availableCapacity + _ = _
      rw [hsum]
      exact heq
    · intro x hx
      rcases List.mem_append.mp hx with hx | hx
      · exact hall x hx
      · simp only [List.mem_singleton] at hx
        subst hx
        simp [statusExpiry]
  | confirm now bid s s2 h =>
    obtain ⟨b, hfind, hpend, hexp, rfl⟩ := confirmBooking_ok h
    obtain ⟨l₁, l₂, hdec, hb, h1, h2⟩ := booking_decomp hn hfind
    have hbk : (setBooking s bid
        (fun x => { x with status := .confirmed, expiresAt := none })).bookings =
        l₁ ++ ({ b with status := .confirmed, expiresAt := none } : BookingR) :: l₂ := by
      show s.bookings.map _ = _
      rw [hdec]
      exact setBooking_decomp _ hb h1 h2
    refine ⟨?_, by simpa using hge, ?_, ?_⟩
    · rw [hbk]
      rw [hdec] at hn
      simpa using hn
    · rw [setBooking_event, hbk]
      rw [hdec] at heq
      have hc : gaContribution ({ b with status := .confirmed, expiresAt := none } : BookingR)
          = gaContribution b := by
        simp [gaContribution, hpend]
      simp only [gaActiveSum_append, gaActiveSum_cons, hc] at *
      exact heq
    · rw [hbk]
      intro x hx
      rcases List.mem_append.mp hx with hx | hx
      · exact hall x (by rw [hdec]; exact List.mem_append_left _ hx)
      · rcases List.mem_cons.mp hx with rfl | hx
        · simp [statusExpiry]
        · exact hall x (by rw [hdec]; exact List.mem_append_right _ (List.mem_cons_of_mem _ hx))
  | cancel bid s s2 h =>
    obtain ⟨b, hfind, hact, rfl⟩ := cancelBooking_ok h
    obtain ⟨l₁, l₂, hdec, hb, h1, h2⟩ := booking_decomp hn hfind
    have hbk : (setBooking (releaseBookingCapacity s b) bid
        (fun x => { x with status := .cancelled, expiresAt := none })).bookings =
        l₁ ++ ({ b with status := .cancelled, expiresAt := none } : BookingR) :: l₂ := by
      show (releaseBookingCapacity s b).bookings.map _ = _
      rw [releaseBookingCapacity_bookings, hdec]
      exact setBooking_decomp _ hb h1 h2
    have hcnew : gaContribution ({ b with status := .cancelled, expiresAt := none } : BookingR)
        = 0 := by
      simp [gaContribution]
    have hnodup2 : ((setBooking (releaseBookingCapacity s b) bid
        (fun x => { x with status := .cancelled, expiresAt := none })).bookings.map
          (·.bid)).Nodup := by
      rw [hbk]
      rw [hdec] at hn
      simpa using hn
    have hmem2 : ∀ x ∈ (setBooking (releaseBookingCapacity s b) bid
        (fun x => { x with status := .cancelled, expiresAt := none })).bookings,
        statusExpiry x := by
      rw [hbk]
      intro x hx
      rcases List.mem_append.mp hx with hx | hx
      · exact hall x (by rw [hdec]; exact List.mem_append_left _ hx)
      · rcases List.mem_cons.mp hx with rfl | hx
        · simp [statusExpiry]
        · exact hall x (by rw [hdec]; exact List.mem_append_right _ (List.mem_cons_of_mem _ hx))
    by_cases hseat : b.seatIds = []
    · have hcb : gaContribution b = b.quantity := by
        simp [gaContribution, hseat, hact]
      have hev : (setBooking (releaseBookingCapacity s b) bid
          (fun x => { x with status := .cancelled, expiresAt := none })).event =
          releaseCapacity s.event b.quantity := by
        rw [setBooking_event, releaseBookingCapacity_event_ga hseat]
      refine ⟨hnodup2, ?_, ?_, hmem2⟩
      · rw [hev]
        show 0 ≤ s.event.availableCapacity + (b.quantity : Int)
        omega
      · rw [hev, hbk]
        rw [hdec] at heq
        simp only [gaActiveSum_append, gaActiveSum_cons, hcnew, hcb, releaseCapacity] at *
        push_cast
        push_cast at heq
        omega
    · have hcb : gaContribution b = 0 := by
        simp [gaContribution, hseat]
      have hev : (setBooking (releaseBookingCapacity s b) bid
          (fun x => { x with status := .cancelled, expiresAt := none })).event =
          s.event := by
        rw [setBooking_event, releaseBookingCapacity_event_seats hseat]
      refine ⟨hnodup2, by rw [hev]; exact hge, ?_, hmem2⟩
      · rw [hev, hbk]
        rw [hdec] at heq
        simp only [gaActiveSum_append, gaActiveSum_cons, hcnew, hcb] at *
        exact heq
  | expire bid s s2 h =>
    obtain ⟨b, hfind, hcase⟩ := expireBooking_ok h
    rcases hcase with ⟨-, rfl⟩ | ⟨hpend, rfl⟩
    · exact ⟨hn, hge, heq, hall⟩
    obtain ⟨l₁, l₂, hdec, hb, h1, h2⟩ := booking_decomp hn hfind
    have hbmem : b ∈ s.bookings := by
      rw [hdec]
      exact List.mem_append_right _ (List.mem_cons_self _ _)
    have hbex : b.expiresAt ≠ none := (hall b hbmem).1 hpend
    have hbk : (setBooking (releaseBookingCapacity s b) bid
        (fun x => { x with status := .expired })).bookings =
        l₁ ++ ({ b with status := .expired } : BookingR) :: l₂ := by
      show (releaseBookingCapacity s b).bookings.map _ = _
      rw [releaseBookingCapacity_bookings, hdec]
      exact setBooking_decomp _ hb h1 h2
    have hcnew : gaContribution ({ b with status := .expired } : BookingR) = 0 := by
      simp [gaContribution]
    have hnodup2 : ((setBooking (releaseBookingCapacity s b) bid
        (fun x => { x with status := .expired })).bookings.map (·.bid)).Nodup := by
      rw [hbk]
      rw [hdec] at hn
      simpa using hn
    have hmem2 : ∀ x ∈ (setBooking (releaseBookingCapacity s b) bid
        (fun x => { x with status := .expired })).bookings, statusExpiry x := by
      rw [hbk]
      intro x hx
      rcases List.mem_append.mp hx with hx | hx
      · exact hall x (by rw [hdec]; exact List.mem_append_left _ hx)
      · rcases List.mem_cons.mp hx with rfl | hx
        · exact ⟨by simp, by simp, by simp, fun _ => hbex⟩
        · exact hall x (by rw [hdec]; exact List.mem_append_right _ (List.mem_cons_of_mem _ hx))
    by_cases hseat : b.seatIds = []
    · have hcb : gaContribution b = b.quantity := by
        simp [gaContribution, hseat, hpend]
      have hev : (setBooking (releaseBookingCapacity s b) bid
          (fun x => { x with status := .expired })).event =
          releaseCapacity s.event b.quantity := by
        rw [setBooking_event, releaseBookingCapacity_event_ga hseat]
      refine ⟨hnodup2, ?_, ?_, hmem2⟩
      · rw [hev]
        show 0 ≤ s.event.availableCapacity + (b.quantity : Int)
        omega
      · rw [hev, hbk]
        rw [hdec] at heq
        simp only [gaActiveSum_append, gaActiveSum_cons, hcnew, hcb, releaseCapacity] at *
        push_cast
        push_cast at heq
        omega
    · have hcb : gaContribution b = 0 := by
        simp [gaContribution, hseat]
      have hev : (setBooking (releaseBookingCapacity s b) bid
          (fun x => { x with status := .expired })).event = s.event := by
        rw [setBooking_event, releaseBookingCapacity_event_seats hseat]
      refine ⟨hnodup2, by rw [hev]; exact hge, ?_, hmem2⟩
      · rw [hev, hbk]
        rw [hdec] at heq
        simp only [gaActiveSum_append, gaActiveSum_cons, hcnew, hcb] at *
        exact heq

theorem reachable_inv {s : EvState} (h : Reachable s) : Inv s := by
  induction h with
  | init s h => exact inv_init h
  | step s s2 hr hs ih => exact inv_step ih hs

theorem findBooking_setBooking {s : EvState} {bid : Nat} {b : BookingR}
    (f : BookingR → BookingR) (hf : ∀ x, (f x).bid = x.bid)
    (hfind : findBooking s bid = some b) :
    findBooking (setBooking s bid f) bid = some (f b) := by
  unfold findBooking at hfind
  have hpb := List.find?_some hfind
  show (s.bookings.map (fun x => if x.bid == bid then f x else x)).find?
      (fun x => x.bid == bid) = some (f b)
  rw [List.find?_map]
  have hcong : ((fun x : BookingR => x.bid == bid) ∘
      (fun x => if x.bid == bid then f x else x)) = (fun x : BookingR => x.bid == bid) := by
    funext x
    by_cases hx : x.bid = bid
    · simp [hx, hf]
    · simp [hx]
  rw [hcong, hfind]
  show some (if b.bid == bid then f b else b) = some (f b)
  rw [if_pos hpb]

/-! ## Claim C1 -/

/-- C1: for a general-admission capacity reservation, the conditional update
decrements `available_capacity` by the quantity and increments `version` by
exactly one if and only if the stored version equals the version read by the
caller and `available_capacity` is at least the quantity; when it affects
zero rows the event row is unchanged, and the rereading code reports
insufficient capacity exactly when `available_capacity < quantity`, and a
stale-version concurrency error exactly otherwise. -/
theorem c1_capacity_cas (stored : EventRow) (expectedVersion quantity : Nat) :
    ((updateEventCapacity stored expectedVersion quantity).2 = .reserved ↔
      stored.version = expectedVersion ∧ (quantity : Int) ≤ stored.availableCapacity) ∧
    ((updateEventCapacity stored expectedVersion quantity).2 = .reserved →
      (updateEventCapacity stored expectedVersion quantity).1 =
        { stored with
            availableCapacity := stored.availableCapacity - quantity
            version := stored.version + 1 }) ∧
    ((updateEventCapacity stored expectedVersion quantity).2 ≠ .reserved →
      (updateEventCapacity stored expectedVersion quantity).1 = stored ∧
      ((updateEventCapacity stored expectedVersion quantity).2 = .insufficientCapacity ↔
        stored.availableCapacity < (quantity : Int)) ∧
      ((updateEventCapacity stored expectedVersion quantity).2 = .staleVersion ↔
        (quantity : Int) ≤ stored.availableCapacity ∧
          stored.version ≠ expectedVersion)) := by
  unfold updateEventCapacity
  split_ifs with h1 h2
  · exact ⟨by simp [h1], fun _ => rfl, fun hne => absurd rfl hne⟩
  · refine ⟨iff_of_false (by simp) h1, fun hcon => absurd hcon (by simp),
      fun _ => ⟨rfl, ?_, iff_of_false (by simp) ?_⟩⟩
    · exact ⟨fun _ => h2, fun _ => rfl⟩
    · intro hcon
      obtain ⟨hle, -⟩ := hcon
      omega
  · refine ⟨iff_of_false (by simp) h1, fun hcon => absurd hcon (by simp),
      fun _ => ⟨rfl, iff_of_false (by simp) (fun hlt => absurd hlt h2), ?_⟩⟩
    constructor
    · intro _
      refine ⟨by omega, fun hv => h1 ⟨hv, by omega⟩⟩
    · intro _
      rfl

/-- Witness for `c1_capacity_cas` at a concrete input: with stored capacity 1
and requested quantity 2 the update affects no rows, leaves the row
unchanged, and the failure is classified as insufficient capacity. -/
theorem c1_capacity_cas_witness :
    (updateEventCapacity ⟨10, 1, 3⟩ 7 2).1 = ⟨10, 1, 3⟩ ∧
    (updateEventCapacity ⟨10, 1, 3⟩ 7 2).2 = .insufficientCapacity := by
  have h := (c1_capacity_cas ⟨10, 1, 3⟩ 7 2).2.2 (by decide)
  exact ⟨h.1, h.2.1.mpr (by decide)⟩

/-! ## Claim C2 -/

/-- C2 counterexample: the capacity restore in the code is not capped at
`total_capacity`.  On a row with total 5 and available 4, releasing a
quantity of 3 produces available capacity 7, above the total, and differs
from the capped restore the claim describes. -/
theorem c2_restore_not_capped :
    (releaseCapacity ⟨5, 4, 1⟩ 3).availableCapacity = 7 ∧
    ¬ (releaseCapacity ⟨5, 4, 1⟩ 3).availableCapacity
        ≤ ((releaseCapacity ⟨5, 4, 1⟩ 3).totalCapacity : Int) ∧
    releaseCapacity ⟨5, 4, 1⟩ 3 ≠ specCappedRestore ⟨5, 4, 1⟩ 3 := by
  decide

/-- C2 amended: cancelling (or expiring) a booking without specific seats
increases `available_capacity` by exactly the quantity of the booking, with no
cap applied; nevertheless in every state reachable by
create/confirm/cancel/expire the committed value satisfies
`0 ≤ available_capacity ≤ total_capacity`, because every active
general-admission booking has its quantity already accounted for in
`total_capacity − available_capacity`. -/
theorem c2_release_exact_and_bounds :
    (∀ (s : EvState) (bid : Nat) (b : BookingR),
        findBooking s bid = some b →
        (b.status = .pending ∨ b.status = .confirmed) →
        b.seatIds = [] →
        ∃ s2, cancelBooking s bid = .ok s2 ∧
          s2.event.availableCapacity = s.event.availableCapacity + b.quantity ∧
          s2.event.version = s.event.version + 1) ∧
    (∀ s : EvState, Reachable s →
        0 ≤ s.event.availableCapacity ∧
        s.event.availableCapacity ≤ (s.event.totalCapacity : Int)) := by
  constructor
  · intro s bid b hfind hact hseats
    refine ⟨setBooking (releaseBookingCapacity s b) bid
        (fun x => { x with status := .cancelled, expiresAt := none }), ?_, ?_, ?_⟩
    · unfold cancelBooking
      rw [hfind]
      simp [hact]
    · rw [setBooking_event, releaseBookingCapacity_event_ga hseats]
      rfl
    · rw [setBooking_event, releaseBookingCapacity_event_ga hseats]
      rfl
  · intro s hr
    obtain ⟨-, hge, heq, -⟩ := reachable_inv hr
    refine ⟨hge, ?_⟩
    have : (0 : Int) ≤ (gaActiveSum s.bookings : Int) := by positivity
    omega

/-- Witness for `c2_release_exact_and_bounds`: cancelling the confirmed
quantity-3 booking of `exCancelGA` raises available capacity from 2 to 5,
and the freshly initialised `exInit` satisfies the capacity bounds. -/
theorem c2_release_witness :
    (∃ s2, cancelBooking exCancelGA 1 = .ok s2 ∧
      s2.event.availableCapacity = exCancelGA.event.availableCapacity + 3 ∧
      s2.event.version = exCancelGA.event.version + 1) ∧
    (0 ≤ exInit.event.availableCapacity ∧
      exInit.event.availableCapacity ≤ (exInit.event.totalCapacity : Int)) := by
  constructor
  · exact c2_release_exact_and_bounds.1 exCancelGA 1 ⟨1, 3, .confirmed, [], none⟩
      (by decide) (Or.inr rfl) rfl
  · exact c2_release_exact_and_bounds.2 exInit (Reachable.init exInit ⟨by decide, rfl⟩)

/-! ## Claim C3 -/

/-- C3 counterexample: a seat-selection booking does not count against
`available_capacity`.  The state `exSeat1` is reachable (one seat-selection
create on a fresh event), yet `total_capacity − available_capacity = 0` is
strictly below the quantity sum 1 of its active bookings. -/
theorem c3_seat_booking_uncounted :
    Reachable exSeat1 ∧
    (exSeat1.event.totalCapacity : Int) - exSeat1.event.availableCapacity
      < (activeSum exSeat1.bookings : Int) := by
  constructor
  · exact Reachable.step exSeat0 exSeat1 (Reachable.init exSeat0 ⟨by decide, rfl⟩)
      (BStep.createSeats 10 15 10 1 1 [7] exSeat0 exSeat1 (by decide) (by decide))
  · decide

/-- C3 amended: in every reachable state,
`total_capacity − available_capacity` equals the quantity sum of the active
(pending or confirmed) bookings *without* specific seats; a seat-selection
create leaves the event row (and hence `available_capacity`) unchanged and
consumes seats instead. -/
theorem c3_ga_accounting :
    (∀ s : EvState, Reachable s →
        (s.event.totalCapacity : Int) - s.event.availableCapacity
          = (gaActiveSum s.bookings : Int)) ∧
    (∀ (s : EvState) (now holdT maxq bid qty : Nat) (seatIds : List Nat) (s2 : EvState),
        createBookingSeats s now holdT maxq bid qty seatIds = .ok s2 →
        s2.event = s.event ∧
        s2.seats = updateSeats s.seats seatIds .held) := by
  constructor
  · intro s hr
    obtain ⟨-, -, heq, -⟩ := reachable_inv hr
    omega
  · intro s now holdT maxq bid qty seatIds s2 h
    obtain ⟨-, -, -, -, rfl⟩ := createBookingSeats_ok h
    exact ⟨rfl, rfl⟩

/-- Witness for `c3_ga_accounting`: the reachable state `exPending` has
`total − available = 2 − 1 = 1`, the quantity of its single pending
general-admission booking, and the concrete seat-selection create on
`exSeat0` leaves the event row unchanged. -/
theorem c3_ga_accounting_witness :
    (exPending.event.totalCapacity : Int) - exPending.event.availableCapacity
      = (gaActiveSum exPending.bookings : Int) ∧
    (exSeat1.event = exSeat0.event ∧
      exSeat1.seats = updateSeats exSeat0.seats [7] .held) := by
  constructor
  · exact c3_ga_accounting.1 exPending
      (Reachable.step exInit exPending (Reachable.init exInit ⟨by decide, rfl⟩)
        (BStep.createGA 10 15 10 1 1 exInit exPending (by decide) (by decide)))
  · exact c3_ga_accounting.2 exSeat0 10 15 10 1 1 [7] exSeat1 (by decide)

/-! ## Claim C5 -/

/-- C5 counterexample: a confirm issued exactly at `now = expires_at` is
accepted, not rejected.  With `expires_at = 100`, `confirmBooking` at time
100 returns the confirmed booking and does not fail with the
booking-expired error. -/
theorem c5_confirm_at_expiry_accepted :
    confirmBooking exPendingAt100 100 1 =
      .ok ⟨⟨5, 4, 2⟩, 1000, true, false, [⟨1, 1, .confirmed, [], none⟩], []⟩ ∧
    confirmBooking exPendingAt100 100 1 ≠ .error .bookingExpired := by
  decide

/-- C5 amended: for a pending booking with `expires_at = t`, a confirm is
rejected with the booking-expired error exactly when `now > t` (and the
transaction leaves the booking unchanged); when `now ≤ t` — the boundary
`now = t` included — the confirm succeeds, setting the status to confirmed
and clearing `expires_at`. -/
theorem c5_confirm_expiry_boundary :
    ∀ (s : EvState) (now bid t : Nat) (b : BookingR),
      findBooking s bid = some b → b.status = .pending → b.expiresAt = some t →
      (t < now → confirmBooking s now bid = .error .bookingExpired) ∧
      (now ≤ t → confirmBooking s now bid =
        .ok (setBooking s bid
              (fun x => { x with status := .confirmed, expiresAt := none }))) := by
  intro s now bid t b hfind hst hext
  unfold confirmBooking
  rw [hfind]
  constructor
  · intro hlt
    simp [hst, isExpiredAt, hext, hlt]
  · intro hle
    simp [hst, isExpiredAt, hext, Nat.not_lt.mpr hle]

/-- Witness for `c5_confirm_expiry_boundary` on `exPendingAt100`: a confirm
at time 101 is rejected as expired, a confirm at time 100 succeeds. -/
theorem c5_confirm_expiry_witness :
    confirmBooking exPendingAt100 101 1 = .error .bookingExpired ∧
    confirmBooking exPendingAt100 100 1 =
      .ok (setBooking exPendingAt100 1
            (fun x => { x with status := .confirmed, expiresAt := none })) := by
  constructor
  · exact (c5_confirm_expiry_boundary exPendingAt100 101 1 100 ⟨1, 1, .pending, [], some 100⟩
      (by decide) rfl rfl).1 (by decide)
  · exact (c5_confirm_expiry_boundary exPendingAt100 100 1 100 ⟨1, 1, .pending, [], some 100⟩
      (by decide) rfl rfl).2 (by decide)

/-! ## Claim C7 -/

/-- C7 counterexample: expiring a pending booking does not clear
`expires_at`.  After a create (at time 10, hold timeout 15) and an expire,
the reachable state holds an `EXPIRED` booking whose `expires_at` is still
25. -/
theorem c7_expire_keeps_expires_at :
    Reachable ⟨⟨2, 2, 3⟩, 1000, true, false, [⟨1, 1, .expired, [], some 25⟩], []⟩ ∧
    (⟨1, 1, .expired, [], some 25⟩ : BookingR).expiresAt ≠ none := by
  constructor
  · exact Reachable.step exPending ⟨⟨2, 2, 3⟩, 1000, true, false, [⟨1, 1, .expired, [], some 25⟩], []⟩
      (Reachable.step exInit exPending (Reachable.init exInit ⟨by decide, rfl⟩)
        (BStep.createGA 10 15 10 1 1 exInit exPending (by decide) (by decide)))
      (BStep.expire 1 exPending ⟨⟨2, 2, 3⟩, 1000, true, false, [⟨1, 1, .expired, [], some 25⟩], []⟩ (by decide))
  · decide

/-- C7 amended: in every reachable state, a pending booking has
`expires_at` set and a confirmed or cancelled booking has it cleared, but an
expired booking *retains* its `expires_at` (the expire transaction does not
clear the field). -/
theorem c7_expires_at_invariant :
    ∀ s : EvState, Reachable s → ∀ b ∈ s.bookings,
      (b.status = .pending → b.expiresAt ≠ none) ∧
      (b.status = .confirmed → b.expiresAt = none) ∧
      (b.status = .cancelled → b.expiresAt = none) ∧
      (b.status = .expired → b.expiresAt ≠ none) := by
  intro s hr
  exact (reachable_inv hr).2.2.2

/-- Witness for `c7_expires_at_invariant` at the reachable state
`exPending` and its pending booking. -/
theorem c7_expires_at_witness :
    ((⟨1, 1, .pending, [], some 25⟩ : BookingR).status = .pending →
      (⟨1, 1, .pending, [], some 25⟩ : BookingR).expiresAt ≠ none) ∧
    ((⟨1, 1, .pending, [], some 25⟩ : BookingR).status = .confirmed →
      (⟨1, 1, .pending, [], some 25⟩ : BookingR).expiresAt = none) ∧
    ((⟨1, 1, .pending, [], some 25⟩ : BookingR).status = .cancelled →
      (⟨1, 1, .pending, [], some 25⟩ : BookingR).expiresAt = none) ∧
    ((⟨1, 1, .pending, [], some 25⟩ : BookingR).status = .expired →
      (⟨1, 1, .pending, [], some 25⟩ : BookingR).expiresAt ≠ none) := by
  exact c7_expires_at_invariant exPending
    (Reachable.step exInit exPending (Reachable.init exInit ⟨by decide, rfl⟩)
      (BStep.createGA 10 15 10 1 1 exInit exPending (by decide) (by decide)))
    ⟨1, 1, .pending, [], some 25⟩ (by decide)

/-! ## Claim C4 -/

/-- C4 counterexample: confirming a pending, unexpired seat-selection
booking does not move its seat to `BOOKED`.  After a seat-selection create
(seat 7 `HELD`) and a confirm well before the expiry, the booking is
`CONFIRMED` but seat 7 is still `HELD`. -/
theorem c4_confirm_leaves_seat_held :
    createBookingSeats exSeat0 10 15 10 1 1 [7] = .ok exSeat1 ∧
    confirmBooking exSeat1 20 1 = .ok exSeat2 ∧
    findBooking exSeat2 1 = some ⟨1, 1, .confirmed, [7], none⟩ ∧
    seatStatus exSeat2.seats 7 = some .held ∧
    seatStatus exSeat2.seats 7 ≠ some .booked := by
  decide

/-- C4 amended: a successful confirm only sets the status of the booking to
confirmed and clears `expires_at`; it leaves the seat table and the event
row untouched.  The seat transition `AVAILABLE|HELD → BOOKED` together with
the creation of one `SeatBooking` row per seat is implemented by the
separate `SeatService.book_seats`, which the confirm flow never invokes. -/
theorem c4_confirm_and_book_seats :
    (∀ (s : EvState) (now bid : Nat) (s2 : EvState),
        confirmBooking s now bid = .ok s2 →
        s2.seats = s.seats ∧ s2.event = s.event ∧
        ∃ b, findBooking s bid = some b ∧ b.status = .pending ∧
          isExpiredAt b now = false ∧
          findBooking s2 bid = some { b with status := .confirmed, expiresAt := none }) ∧
    (∀ (seats : List SeatR) (seatIds : List Nat) (bid : Nat),
        (∀ x ∈ seats, x.sid ∈ seatIds → (x.status = .available ∨ x.status = .held)) →
        ∃ out, bookSeats seats seatIds bid = .ok out ∧
          (∀ x ∈ out.1, x.sid ∈ seatIds → x.status = .booked) ∧
          (∀ x ∈ out.1, x.sid ∉ seatIds → x ∈ seats) ∧
          out.2 = (seats.filter (fun x => seatIds.contains x.sid)).map
            (fun x => (bid, x.sid))) := by
  constructor
  · intro s now bid s2 h
    obtain ⟨b, hfind, hst, hexp, rfl⟩ := confirmBooking_ok h
    refine ⟨rfl, rfl, b, hfind, hst, hexp, ?_⟩
    exact findBooking_setBooking _ (fun x => rfl) hfind
  · intro seats seatIds bid hok
    have hall : (seats.filter (fun x => seatIds.contains x.sid)).all
        (fun x => decide (x.status = .available) || decide (x.status = .held)) = true := by
      rw [List.all_eq_true]
      intro x hx
      have hm := List.mem_filter.mp hx
      have := hok x hm.1 (by simpa using hm.2)
      rcases this with h | h <;> simp [h]
    refine ⟨(updateSeats seats seatIds .booked,
        (seats.filter (fun x => seatIds.contains x.sid)).map (fun x => (bid, x.sid))),
      ?_, ?_, ?_, rfl⟩
    · unfold bookSeats
      rw [if_pos hall]
    · intro x hx hmem
      unfold updateSeats at hx
      obtain ⟨y, hy, rfl⟩ := List.mem_map.mp hx
      by_cases hc : seatIds.contains y.sid
      · rw [if_pos hc]
      · rw [if_neg hc] at hmem
        exact absurd hmem (by simpa using hc)
    · intro x hx hmem
      unfold updateSeats at hx
      obtain ⟨y, hy, rfl⟩ := List.mem_map.mp hx
      by_cases hc : seatIds.contains y.sid
      · rw [if_pos hc] at hmem
        exact absurd (by simpa using hc : y.sid ∈ seatIds) hmem
      · rw [if_neg hc]
        exact hy

/-- Witness for `c4_confirm_and_book_seats`: the confirm on `exSeat1`
leaves the seat table unchanged, and `book_seats` on a held seat 7 books
it and returns the `SeatBooking` row `(1, 7)`. -/
theorem c4_confirm_witness :
    (exSeat2.seats = exSeat1.seats ∧ exSeat2.event = exSeat1.event ∧
      ∃ b, findBooking exSeat1 1 = some b ∧ b.status = .pending ∧
        isExpiredAt b 20 = false ∧
        findBooking exSeat2 1 = some { b with status := .confirmed, expiresAt := none }) ∧
    (∃ out, bookSeats [⟨7, .held⟩] [7] 1 = .ok out ∧
      (∀ x ∈ out.1, x.sid ∈ [7] → x.status = .booked) ∧
      (∀ x ∈ out.1, x.sid ∉ [7] → x ∈ [(⟨7, .held⟩ : SeatR)]) ∧
      out.2 = (([⟨7, .held⟩] : List SeatR).filter (fun x => [7].contains x.sid)).map
        (fun x => (1, x.sid))) := by
  constructor
  · exact c4_confirm_and_book_seats.1 exSeat1 20 1 exSeat2 (by decide)
  · exact c4_confirm_and_book_seats.2 [⟨7, .held⟩] [7] 1 (by decide)

/-! ## Claim C6 -/

/-- C6: evaluation at the failing input.  Cancelling a confirmed booking
with seat 7 `BOOKED` does set the seat back to `AVAILABLE`, but the
`SeatBooking` rows of the booking are retained (the cancelled booking still
lists seat 7); `SeatService.release_booked_seats` likewise returns the rows
table unchanged, because the statement under its deletion comment is a
select. -/
theorem c6_cancel_keeps_seat_rows :
    cancelBooking exConfirmedSeats 1 =
      .ok ⟨⟨10, 10, 1⟩, 100, true, true, [⟨1, 1, .cancelled, [7], none⟩], [⟨7, .available⟩]⟩ ∧
    (releaseBookedSeats [⟨7, .booked⟩] [(1, 7)] 1).1 = [⟨7, .available⟩] ∧
    (releaseBookedSeats [⟨7, .booked⟩] [(1, 7)] 1).2 = [(1, 7)] := by
  decide

/-! ## Claim C8 -/

/-- C8 counterexample: the notify walk does not stop at the first active
entry whose request exceeds the remainder.  With entries requesting 5 and 2
(positions 1 and 2) and 3 seats offered, the head is skipped and the later,
smaller entry is notified ahead of it. -/
theorem c8_notify_leapfrogs :
    (notifyWaitlist [⟨1, 1, 5, 1, .active⟩, ⟨2, 2, 2, 2, .active⟩] 3).2 =
      [⟨2, 2, 2, 2, .notified⟩] ∧
    (notifyWaitlist [⟨1, 1, 5, 1, .active⟩, ⟨2, 2, 2, 2, .active⟩] 3).1 =
      [⟨1, 1, 5, 1, .active⟩, ⟨2, 2, 2, 2, .notified⟩] := by
  decide

/-- C8 amended: the walk over active entries in ascending position notifies
each entry whose request fits the remainder and subtracts it, never
notifying more than the offered quantity in total; an entry whose request
exceeds the positive remainder is *skipped* — left active while the walk
continues with the same remainder — so a later smaller request can be
served; the walk stops only when the remainder reaches zero. -/
theorem c8_notify_skip_semantics :
    (∀ (es : List WEntry) (q : Nat), ((notifyScan es q).2.map (·.req)).sum ≤ q) ∧
    (∀ (e : WEntry) (es : List WEntry) (q : Nat), q ≠ 0 → q < e.req →
        notifyScan (e :: es) q = (e :: (notifyScan es q).1, (notifyScan es q).2)) ∧
    (∀ (e : WEntry) (es : List WEntry) (q : Nat), q ≠ 0 → e.req ≤ q →
        notifyScan (e :: es) q =
          ({ e with status := .notified } :: (notifyScan es (q - e.req)).1,
           { e with status := .notified } :: (notifyScan es (q - e.req)).2)) ∧
    (∀ es : List WEntry, notifyScan es 0 = (es, [])) := by
  refine ⟨?_, ?_, ?_, ?_⟩
  · intro es
    induction es with
    | nil => intro q; simp [notifyScan]
    | cons e es ih =>
      intro q
      by_cases hq : q = 0
      · subst hq
        simp [notifyScan]
      · by_cases hle : e.req ≤ q
        · have hrec := ih (q - e.req)
          simp only [notifyScan, hq, hle, if_true, if_false, ite_true, ite_false,
            List.map_cons, List.sum_cons]
          omega
        · simpa [notifyScan, hq, hle] using ih q
  · intro e es q hq hlt
    simp [notifyScan, hq, Nat.not_le.mpr hlt]
  · intro e es q hq hle
    simp [notifyScan, hq, hle]
  · intro es
    cases es <;> simp [notifyScan]

/-- Witness for `c8_notify_skip_semantics`: with 3 seats offered, a single
entry requesting 5 is skipped with the walk continuing (on the empty tail),
and the entry requesting 2 is notified. -/
theorem c8_notify_witness :
    notifyScan [⟨1, 1, 5, 1, .active⟩] 3 =
      (⟨1, 1, 5, 1, .active⟩ :: (notifyScan [] 3).1, (notifyScan [] 3).2) ∧
    ((notifyScan [⟨1, 1, 5, 1, .active⟩, ⟨2, 2, 2, 2, .active⟩] 3).2.map (·.req)).sum ≤ 3 := by
  constructor
  · exact c8_notify_skip_semantics.2.1 ⟨1, 1, 5, 1, .active⟩ [] 3 (by decide) (by decide)
  · exact c8_notify_skip_semantics.1 [⟨1, 1, 5, 1, .active⟩, ⟨2, 2, 2, 2, .active⟩] 3

/-! ## Claim C10 -/

/-- C10 counterexample: the pressure denominator is not
`max(availableCapacity, 10)`.  With one waitlist entry and available
capacity 1, the code computes pressure `1/1 = 1` and returns factor 1.15,
while the claimed formula gives pressure `1/10` and factor 1.0. -/
theorem c10_pressure_denominator :
    waitlistMultiplier 1 1 = 23/20 ∧
    specWaitlistMultiplier 1 1 = 1 ∧
    waitlistMultiplier 1 1 ≠ specWaitlistMultiplier 1 1 := by
  refine ⟨?_, ?_, ?_⟩ <;> norm_num [waitlistMultiplier, specWaitlistMultiplier]

/-- C10 amended: the factor is 1.0 for an empty waitlist; otherwise the
pressure is `waitlistSize / availableCapacity` when the available capacity
is positive and `waitlistSize / 10` when it is zero (or negative), with
thresholds 2, 1 and 0.5 mapping to 1.3, 1.15 and 1.05 — equivalently the
integer comparisons below. -/
theorem c10_waitlist_thresholds :
    ∀ (size : Nat) (avail : Int),
      waitlistMultiplier size avail =
        if size = 0 then 1
        else if 0 < avail then
          (if 2 * avail ≤ (size : Int) then 13/10
           else if avail ≤ (size : Int) then 23/20
           else if avail ≤ 2 * (size : Int) then 21/20
           else 1)
        else
          (if 20 ≤ size then 13/10
           else if 10 ≤ size then 23/20
           else if 5 ≤ size then 21/20
           else 1) := by
  intro size avail
  by_cases hs : size = 0
  · simp [waitlistMultiplier, hs]
  · by_cases ha : 0 < avail
    · have hapos : (0 : ℚ) < (avail : ℚ) := by exact_mod_cast ha
      have h2 : (2 : ℚ) ≤ (size : ℚ) / (avail : ℚ) ↔ 2 * avail ≤ (size : Int) := by
        rw [le_div_iff₀ hapos]
        constructor
        · intro h; exact_mod_cast h
        · intro h; exact_mod_cast h
      have h1 : (1 : ℚ) ≤ (size : ℚ) / (avail : ℚ) ↔ avail ≤ (size : Int) := by
        rw [le_div_iff₀ hapos]
        constructor
        · intro h
          have : (avail : ℚ) ≤ (size : ℚ) := by linarith
          exact_mod_cast this
        · intro h
          have : (avail : ℚ) ≤ (size : ℚ) := by exact_mod_cast h
          linarith
      have hhalf : (1/2 : ℚ) ≤ (size : ℚ) / (avail : ℚ) ↔ avail ≤ 2 * (size : Int) := by
        rw [le_div_iff₀ hapos]
        constructor
        · intro h
          have : (avail : ℚ) ≤ 2 * (size : ℚ) := by linarith
          exact_mod_cast this
        · intro h
          have : (avail : ℚ) ≤ 2 * (size : ℚ) := by exact_mod_cast h
          linarith
      simp only [waitlistMultiplier, hs, ha, if_true, if_false, ite_true, ite_false]
      simp only [h2, h1, hhalf]
    · have h2 : (2 : ℚ) ≤ (size : ℚ) / 10 ↔ 20 ≤ size := by
        rw [le_div_iff₀ (by norm_num : (0:ℚ) < 10)]
        constructor
        · intro h; exact_mod_cast h
        · intro h; exact_mod_cast h
      have h1 : (1 : ℚ) ≤ (size : ℚ) / 10 ↔ 10 ≤ size := by
        rw [le_div_iff₀ (by norm_num : (0:ℚ) < 10)]
        constructor
        · intro h
          have : (10 : ℚ) ≤ (size : ℚ) := by linarith
          exact_mod_cast this
        · intro h
          have : (10 : ℚ) ≤ (size : ℚ) := by exact_mod_cast h
          linarith
      have hhalf : (1/2 : ℚ) ≤ (size : ℚ) / 10 ↔ 5 ≤ size := by
        rw [le_div_iff₀ (by norm_num : (0:ℚ) < 10)]
        constructor
        · intro h
          have : (5 : ℚ) ≤ (size : ℚ) := by linarith
          exact_mod_cast this
        · intro h
          have : (5 : ℚ) ≤ (size : ℚ) := by exact_mod_cast h
          linarith
      simp only [waitlistMultiplier, hs, ha, if_true, if_false, ite_true, ite_false]
      simp only [h2, h1, hhalf]

/-! ## Waitlist position lemmas -/

theorem band_eq_true {a b : Bool} : (a && b) = true ↔ a = true ∧ b = true := by
  cases a <;> cases b <;> simp


theorem le_maxPos {s : List WEntry} {e : WEntry} (he : e ∈ s) :
    e.position ≤ maxPos s := by
  induction s with
  | nil => cases he
  | cons y ys ih =>
    rcases List.mem_cons.mp he with rfl | hmem
    · exact Nat.le_max_left _ _
    · exact le_trans (ih hmem) (Nat.le_max_right _ _)

theorem maxPos_le {s : List WEntry} {c : Nat} (h : ∀ e ∈ s, e.position ≤ c) :
    maxPos s ≤ c := by
  induction s with
  | nil => exact Nat.zero_le c
  | cons y ys ih =>
    show max y.position (maxPos ys) ≤ c
    exact max_le (h y (List.mem_cons_self _ _))
      (ih fun e he => h e (List.mem_cons_of_mem _ he))

theorem posCount_append (l₁ l₂ : List WEntry) (m : Nat) :
    posCount (l₁ ++ l₂) m = posCount l₁ m + posCount l₂ m :=
  List.countP_append _ _ _

theorem posCount_cons (e : WEntry) (l : List WEntry) (m : Nat) :
    posCount (e :: l) m =
      posCount l m + (if nonTerminalB e && e.position == m then 1 else 0) :=
  List.countP_cons _ _ _

theorem ntCount_append (l₁ l₂ : List WEntry) :
    ntCount (l₁ ++ l₂) = ntCount l₁ + ntCount l₂ :=
  List.countP_append _ _ _

theorem ntCount_cons (e : WEntry) (l : List WEntry) :
    ntCount (e :: l) = ntCount l + (if nonTerminalB e then 1 else 0) :=
  List.countP_cons _ _ _

theorem posCount_exists {s : List WEntry} {m : Nat} (h : 0 < posCount s m) :
    ∃ e ∈ s, nonTerminalB e = true ∧ e.position = m := by
  obtain ⟨e, he, hpe⟩ := List.countP_pos_iff.mp h
  rcases band_eq_true.mp hpe with ⟨hnt, hpos⟩
  exact ⟨e, he, hnt, by simpa using hpos⟩

theorem removeFirst_append {p : WEntry → Bool} {l₁ l₂ : List WEntry} {e : WEntry}
    (h1 : ∀ x ∈ l₁, p x = false) (he : p e = true) :
    removeFirst p (l₁ ++ e :: l₂) = l₁ ++ l₂ := by
  induction l₁ with
  | nil => simp [removeFirst, he]
  | cons y ys ih =>
    have hy := h1 y (List.mem_cons_self _ _)
    show (if p y then ys ++ e :: l₂ else y :: removeFirst p (ys ++ e :: l₂)) = _
    rw [if_neg (by simp [hy])]
    rw [ih (fun x hx => h1 x (List.mem_cons_of_mem _ hx))]
    rfl

theorem ntCount_reorder (l : List WEntry) (p : Nat) :
    ntCount (reorderAfterRemoval l p) = ntCount l := by
  unfold reorderAfterRemoval ntCount
  rw [List.countP_map]
  apply List.countP_congr
  intro x _
  simp only [Function.comp]
  by_cases hx : nonTerminalB x && decide (p < x.position)
  · rw [if_pos hx]
    exact Iff.rfl
  · rw [if_neg hx]

theorem posCount_reorder_lt {l : List WEntry} {p m : Nat} (hm : m < p) :
    posCount (reorderAfterRemoval l p) m = posCount l m := by
  unfold reorderAfterRemoval posCount
  rw [List.countP_map]
  apply List.countP_congr
  intro x _
  simp only [Function.comp]
  by_cases hx : nonTerminalB x && decide (p < x.position)
  · rw [if_pos hx]
    rcases band_eq_true.mp hx with ⟨-, hlt⟩
    have hpp : p < x.position := of_decide_eq_true hlt
    constructor
    · intro hcon
      rcases band_eq_true.mp hcon with ⟨-, hpos⟩
      have : x.position - 1 = m := by simpa using hpos
      omega
    · intro hcon
      rcases band_eq_true.mp hcon with ⟨-, hpos⟩
      have : x.position = m := by simpa using hpos
      omega
  · rw [if_neg hx]

theorem posCount_reorder_ge {l : List WEntry} {p m : Nat} (hm : p ≤ m)
    (h0 : posCount l p = 0) :
    posCount (reorderAfterRemoval l p) m = posCount l (m + 1) := by
  unfold posCount at h0
  unfold reorderAfterRemoval posCount
  rw [List.countP_map]
  apply List.countP_congr
  intro x hx
  have hx0 := List.countP_eq_zero.mp h0 x hx
  simp only [Function.comp]
  by_cases hc : nonTerminalB x && decide (p < x.position)
  · rw [if_pos hc]
    rcases band_eq_true.mp hc with ⟨hnt, hlt⟩
    have hpp : p < x.position := of_decide_eq_true hlt
    constructor
    · intro hcon
      rcases band_eq_true.mp hcon with ⟨-, hpos⟩
      have h1 : x.position - 1 = m := by simpa using hpos
      refine band_eq_true.mpr ⟨hnt, ?_⟩
      have : x.position = m + 1 := by omega
      simp [this]
    · intro hcon
      rcases band_eq_true.mp hcon with ⟨-, hpos⟩
      have h1 : x.position = m + 1 := by simpa using hpos
      refine band_eq_true.mpr ⟨hnt, ?_⟩
      have : x.position - 1 = m := by omega
      simp [this]
  · rw [if_neg hc]
    by_cases hnt : nonTerminalB x = true
    · have hle : ¬ p < x.position := by
        intro hcon
        exact hc (band_eq_true.mpr ⟨hnt, decide_eq_true hcon⟩)
      have hnep : x.position ≠ p := by
        intro hcon
        exact hx0 (band_eq_true.mpr ⟨hnt, by simp [hcon]⟩)
      constructor
      · intro hcon
        rcases band_eq_true.mp hcon with ⟨-, hpos⟩
        have : x.position = m := by simpa using hpos
        omega
      · intro hcon
        rcases band_eq_true.mp hcon with ⟨-, hpos⟩
        have : x.position = m + 1 := by simpa using hpos
        omega
    · constructor
      · intro hcon
        rcases band_eq_true.mp hcon with ⟨hcon1, -⟩
        exact absurd hcon1 hnt
      · intro hcon
        rcases band_eq_true.mp hcon with ⟨hcon1, -⟩
        exact absurd hcon1 hnt

/-- The two-entry waitlist `exWl` has contiguous positions 1, 2. -/
theorem exWl_contiguous : contiguousPositions exWl := by
  intro m
  have h2 : ntCount exWl = 2 := by decide
  have hval : posCount exWl m = (if 2 = m then 1 else 0) + (if 1 = m then 1 else 0) := by
    simp [exWl, posCount, List.countP_cons, List.countP_nil, nonTerminalB]
  rw [h2, hval]
  split_ifs <;> omega

/-! ## Claim C9 -/

/-- C9 counterexample: converting the tail entry of a two-entry waitlist
keeps position 2 of the converted entry visible to the max-position query, so
a subsequent join receives position 3 and the non-terminal positions become
{1, 3}: not the contiguous sequence 1..2. -/
theorem c9_convert_join_gap :
    contiguousPositions exWl ∧
    ¬ contiguousPositions (joinWaitlist (convertWaitlist exWl 2) 3 3 1) := by
  constructor
  · exact exWl_contiguous
  · intro h
    exact absurd (h 2) (by decide)

/-- C9 amended: a completed Leave preserves contiguity of the non-terminal
positions (1..k becomes 1..k−1), and a completed Join preserves it provided
no stored entry — converted and expired entries included — occupies a
position above the non-terminal count; Convert retains the converted
position of the converted entry (it only compacts the entries behind it), and the
notification-expiry requeue takes max(position)+1 over all entries, so
after either of those a Join can break the invariant. -/
theorem c9_join_leave_contiguity :
    (∀ (s : List WEntry) (wid uid req : Nat),
        contiguousPositions s →
        (∀ e ∈ s, e.position ≤ ntCount s) →
        contiguousPositions (joinWaitlist s wid uid req)) ∧
    (∀ (s : List WEntry) (uid : Nat),
        contiguousPositions s →
        contiguousPositions (leaveWaitlist s uid)) := by
  constructor
  · intro s wid uid req hc hb
    unfold joinWaitlist
    by_cases hfound : (s.find? (userEntryB uid)).isSome
    · rw [if_pos hfound]
      exact hc
    · rw [if_neg hfound]
      have hmax : maxPos s = ntCount s := by
        have hle : maxPos s ≤ ntCount s := maxPos_le hb
        rcases Nat.eq_zero_or_pos (ntCount s) with hk0 | hkpos
        · omega
        · have h1 : posCount s (ntCount s) = 1 := by
            have := hc (ntCount s)
            rw [if_pos ⟨hkpos, le_refl _⟩] at this
            exact this
          obtain ⟨e, he, -, hep⟩ :=
            posCount_exists (show 0 < posCount s (ntCount s) by omega)
          have := le_maxPos he
          omega
      intro m
      have hone : posCount [⟨wid, uid, req, nextPosition s, .active⟩] m
          = if m = ntCount s + 1 then 1 else 0 := by
        have : posCount [⟨wid, uid, req, nextPosition s, .active⟩] m
            = if ntCount s + 1 = m then 1 else 0 := by
          simp [posCount, List.countP_cons, List.countP_nil, nonTerminalB,
            nextPosition, hmax]
        rw [this]
        split_ifs <;> omega
      have hnt2 : ntCount (s ++ [⟨wid, uid, req, nextPosition s, .active⟩])
          = ntCount s + 1 := by
        rw [ntCount_append]
        simp [ntCount, List.countP_cons, nonTerminalB]
      rw [posCount_append, hone, hnt2, hc m]
      split_ifs <;> omega
  · intro s uid hc
    unfold leaveWaitlist
    cases hfind : s.find? (userEntryB uid) with
    | none => exact hc
    | some e =>
      have hpe := List.find?_some hfind
      have hent : nonTerminalB e = true := (band_eq_true.mp hpe).2
      obtain ⟨l₁, l₂, hdec, hl₁⟩ := find?_decomp _ _ _ hfind
      have hrem : removeFirst (userEntryB uid) s = l₁ ++ l₂ := by
        rw [hdec]
        exact removeFirst_append hl₁ hpe
      rw [hrem]
      have hIn : e ∈ s := by
        rw [hdec]
        exact List.mem_append_right _ (List.mem_cons_self _ _)
      have hppos : 0 < posCount s e.position := by
        apply List.countP_pos_iff.mpr
        exact ⟨e, hIn, by simp [hent]⟩
      have h1p : 1 ≤ e.position ∧ e.position ≤ ntCount s := by
        by_contra hcond
        have := hc e.position
        rw [if_neg hcond] at this
        omega
      have hcount1 : posCount s e.position = 1 := by
        have := hc e.position
        rw [if_pos h1p] at this
        exact this
      have hremcount : ∀ m, posCount s m =
          posCount (l₁ ++ l₂) m + (if e.position == m then 1 else 0) := by
        intro m
        rw [hdec, posCount_append, posCount_append, posCount_cons]
        simp only [hent, Bool.true_and]
        omega
      have hrem0 : posCount (l₁ ++ l₂) e.position = 0 := by
        have := hremcount e.position
        simp only [beq_self_eq_true, if_true] at this
        omega
      have hntrem : ntCount (l₁ ++ l₂) + 1 = ntCount s := by
        rw [hdec, ntCount_append, ntCount_append, ntCount_cons]
        simp [hent]
        omega
      intro m
      have hntX : ntCount (reorderAfterRemoval (l₁ ++ l₂) e.position)
          = ntCount (l₁ ++ l₂) := ntCount_reorder _ _
      rw [hntX]
      by_cases hm : m < e.position
      · rw [posCount_reorder_lt hm]
        have heq := hremcount m
        have hind : (if e.position == m then 1 else 0) = 0 := by
          simp only [beq_iff_eq]
          split_ifs with hcon
          · omega
          · rfl
        rw [hind] at heq
        have hcm := hc m
        split_ifs at hcm ⊢ <;> omega
      · push_neg at hm
        rw [posCount_reorder_ge hm hrem0]
        have heq := hremcount (m + 1)
        have hind : (if e.position == m + 1 then 1 else 0) = 0 := by
          simp only [beq_iff_eq]
          split_ifs with hcon
          · omega
          · rfl
        rw [hind] at heq
        have hcm := hc (m + 1)
        split_ifs at hcm ⊢ <;> omega

/-- Witness for `c9_join_leave_contiguity` on the concrete waitlist `exWl`:
the joined entry receives position 3 and position 3 is occupied exactly
once; after user 1 leaves, position 1 is still occupied exactly once. -/
theorem c9_join_leave_witness :
    posCount (joinWaitlist exWl 3 3 1) 3 =
      (if 1 ≤ 3 ∧ 3 ≤ ntCount (joinWaitlist exWl 3 3 1) then 1 else 0) ∧
    posCount (leaveWaitlist exWl 1) 1 =
      (if 1 ≤ 1 ∧ 1 ≤ ntCount (leaveWaitlist exWl 1) then 1 else 0) := by
  constructor
  · exact c9_join_leave_contiguity.1 exWl 3 3 1 exWl_contiguous (by decide) 3
  · exact c9_join_leave_contiguity.2 exWl 1 exWl_contiguous 1

end Evently
